import Mathlib

/-
Verification of the blah-code agent runtime against its specification.

The definitions below are a shallow embedding of the TypeScript sources:
  - packages/policy/src/index.ts        (permission policy engine)
  - packages/session/src/index.ts       (session event store payload decoding)
  - the tool runtime (resolvePath, built-in read_file/write_file)
  - the agent step engine (AgentRunner.run, extractToolCall,
    summarizeToolTarget, toolCallSchema)
  - the daemon approval broker (pending-permission map with auto-deny)

Machine strings are Lean Strings, JSON values are an inductive type with a
fuel-based parser mirroring JSON.parse, JavaScript objects are association
lists preserving insertion order (JS object key-update semantics: updating
an existing key keeps its position, a fresh key is appended).
-/

namespace BlahCode

/-! ## JSON values (the result of JSON.parse) -/

/-- A JSON value as produced by JSON.parse.  Numbers keep their source
lexeme (no claim in this development inspects numeric values). -/
inductive Json where
  | null
  | bool (b : Bool)
  | num (lexeme : String)
  | str (s : String)
  | arr (items : List Json)
  | obj (fields : List (String × Json))

/-- Association-list lookup with JavaScript object semantics
(first occurrence wins; keys are unique in lists built by objSet). -/
def objLookup (l : List (String × α)) (k : String) : Option α :=
  match l with
  | [] => none
  | (k1, v) :: rest => if k1 = k then some v else objLookup rest k

/-- JavaScript object key assignment: update an existing key in place
(keeping its position) or append a fresh key at the end. -/
def objSet (l : List (String × α)) (k : String) (v : α) : List (String × α) :=
  match l with
  | [] => [(k, v)]
  | (k1, v1) :: rest => if k1 = k then (k, v) :: rest else (k1, v1) :: objSet rest k v

/-! ## JSON parser (shallow embedding of JSON.parse) -/

def lbrace : Char := Char.ofNat 123

def rbrace : Char := Char.ofNat 125

def isJsonWs (c : Char) : Bool :=
  c = ' ' || c = '\n' || c = '\t' || c = '\x0d'

def skipWs : List Char → List Char
  | [] => []
  | c :: rest => if isJsonWs c then skipWs rest else c :: rest

def hexVal (c : Char) : Option Nat :=
  if '0' ≤ c ∧ c ≤ '9' then some (c.toNat - 48)
  else if 'a' ≤ c ∧ c ≤ 'f' then some (c.toNat - 87)
  else if 'A' ≤ c ∧ c ≤ 'F' then some (c.toNat - 55)
  else none

/-- Parse the body of a JSON string literal (after the opening quote),
handling the JSON escape sequences. -/
def parseStringBody (fuel : Nat) (cs : List Char) (acc : List Char) :
    Option (String × List Char) :=
  match fuel with
  | 0 => none
  | fuel + 1 =>
    match cs with
    | [] => none
    | c :: rest =>
      if c = '"' then some (String.mk acc.reverse, rest)
      else if c = '\\' then
        match rest with
        | [] => none
        | e :: rest2 =>
          if e = '"' then parseStringBody fuel rest2 ('"' :: acc)
          else if e = '\\' then parseStringBody fuel rest2 ('\\' :: acc)
          else if e = '/' then parseStringBody fuel rest2 ('/' :: acc)
          else if e = 'b' then parseStringBody fuel rest2 (Char.ofNat 8 :: acc)
          else if e = 'f' then parseStringBody fuel rest2 (Char.ofNat 12 :: acc)
          else if e = 'n' then parseStringBody fuel rest2 ('\n' :: acc)
          else if e = 'r' then parseStringBody fuel rest2 (Char.ofNat 13 :: acc)
          else if e = 't' then parseStringBody fuel rest2 ('\t' :: acc)
          else if e = 'u' then
            match rest2 with
            | a :: b :: c2 :: d :: rest3 =>
              match hexVal a, hexVal b, hexVal c2, hexVal d with
              | some x1, some x2, some x3, some x4 =>
                parseStringBody fuel rest3
                  (Char.ofNat (((x1 * 16 + x2) * 16 + x3) * 16 + x4) :: acc)
              | _, _, _, _ => none
            | _ => none
          else none
      else if c.toNat < 32 then none
      else parseStringBody fuel rest (c :: acc)

def spanDigits : List Char → List Char × List Char
  | [] => ([], [])
  | c :: rest =>
    if c.isDigit then
      let (ds, r) := spanDigits rest
      (c :: ds, r)
    else ([], c :: rest)

/-- Parse a JSON number lexeme (strict JSON grammar: no leading zeros,
optional fraction and exponent). Returns the lexeme and the rest. -/
def parseNumber (cs : List Char) : Option (String × List Char) :=
  let (sign, cs1) :=
    match cs with
    | '-' :: rest => (['-'], rest)
    | _ => (([] : List Char), cs)
  let (intPart, cs2) := spanDigits cs1
  match intPart with
  | [] => none
  | d :: ds =>
    if d = '0' ∧ ds ≠ [] then none
    else
      let (fracPart, cs3) :=
        match cs2 with
        | '.' :: rest =>
          let (fs, r) := spanDigits rest
          if fs = [] then ([], cs2) else ('.' :: fs, r)
        | _ => (([] : List Char), cs2)
      if cs3 ≠ cs2 ∨ fracPart = [] then
        let (expPart, cs4) :=
          match cs3 with
          | 'e' :: rest =>
            let (sgn, r0) :=
              match rest with
              | '+' :: r => (['e', '+'], r)
              | '-' :: r => (['e', '-'], r)
              | _ => (['e'], rest)
            let (es, r) := spanDigits r0
            if es = [] then ([], cs3) else (sgn ++ es, r)
          | 'E' :: rest =>
            let (sgn, r0) :=
              match rest with
              | '+' :: r => (['E', '+'], r)
              | '-' :: r => (['E', '-'], r)
              | _ => (['E'], rest)
            let (es, r) := spanDigits r0
            if es = [] then ([], cs3) else (sgn ++ es, r)
          | _ => (([] : List Char), cs3)
        some (String.mk (sign ++ intPart ++ fracPart ++ expPart), cs4)
      else none

def stripExact : List Char → List Char → Option (List Char)
  | [], cs => some cs
  | _, [] => none
  | p :: ps, c :: cs => if p = c then stripExact ps cs else none

mutual

/-- Parse one JSON value.  Fuel decreases on every recursive descent; an
initial fuel of the input length plus two always suffices. -/
def parseValue (fuel : Nat) (cs : List Char) : Option (Json × List Char) :=
  match fuel with
  | 0 => none
  | fuel + 1 =>
    match skipWs cs with
    | [] => none
    | c :: rest =>
      if c = '"' then
        match parseStringBody (rest.length + 1) rest [] with
        | some (s, r) => some (Json.str s, r)
        | none => none
      else if c = lbrace then
        match skipWs rest with
        | c2 :: rest2 =>
          if c2 = rbrace then some (Json.obj [], rest2)
          else parseMembers fuel (c2 :: rest2) []
        | [] => none
      else if c = '[' then
        match skipWs rest with
        | c2 :: rest2 =>
          if c2 = ']' then some (Json.arr [], rest2)
          else parseElements fuel (c2 :: rest2) []
        | [] => none
      else if c = 't' then
        match stripExact ['r', 'u', 'e'] rest with
        | some r => some (Json.bool true, r)
        | none => none
      else if c = 'f' then
        match stripExact ['a', 'l', 's', 'e'] rest with
        | some r => some (Json.bool false, r)
        | none => none
      else if c = 'n' then
        match stripExact ['u', 'l', 'l'] rest with
        | some r => some (Json.null, r)
        | none => none
      else if c = '-' ∨ c.isDigit then
        match parseNumber (c :: rest) with
        | some (s, r) => some (Json.num s, r)
        | none => none
      else none

/-- Parse the members of a JSON object after the opening brace (at least
one member expected).  Duplicate keys follow JSON.parse: the later value
wins, the first position is kept (objSet). -/
def parseMembers (fuel : Nat) (cs : List Char) (acc : List (String × Json)) :
    Option (Json × List Char) :=
  match fuel with
  | 0 => none
  | fuel + 1 =>
    match skipWs cs with
    | '"' :: rest =>
      match parseStringBody (rest.length + 1) rest [] with
      | some (key, r1) =>
        match skipWs r1 with
        | ':' :: r2 =>
          match parseValue fuel r2 with
          | some (v, r3) =>
            let acc1 := objSet acc key v
            match skipWs r3 with
            | ',' :: r4 => parseMembers fuel r4 acc1
            | c :: r4 =>
              if c = rbrace then some (Json.obj acc1, r4) else none
            | [] => none
          | none => none
        | _ => none
      | none => none
    | _ => none

/-- Parse the elements of a JSON array after the opening bracket (at least
one element expected). -/
def parseElements (fuel : Nat) (cs : List Char) (acc : List Json) :
    Option (Json × List Char) :=
  match fuel with
  | 0 => none
  | fuel + 1 =>
    match parseValue fuel cs with
    | some (v, r1) =>
      match skipWs r1 with
      | ',' :: r2 => parseElements fuel r2 (acc ++ [v])
      | ']' :: r2 => some (Json.arr (acc ++ [v]), r2)
      | _ => none
    | none => none

end

/-- JSON.parse on a character list: parse one value, allow surrounding
whitespace, reject trailing garbage.  Returns none where JSON.parse throws. -/
def jsonParseChars (cs : List Char) : Option Json :=
  match parseValue (cs.length + 2) cs with
  | some (j, rest) => if skipWs rest = [] then some j else none
  | none => none

/-- Shallow embedding of JSON.parse on a string. -/
def jsonParse (s : String) : Option Json :=
  jsonParseChars s.data

/-! ## Permission policy engine (packages/policy/src/index.ts) -/

inductive PermissionDecision where
  | allow
  | deny
  | ask
deriving DecidableEq, Repr

/-- A policy value: a key maps to a scalar decision or to a pattern map. -/
inductive PolicyEntry where
  | scalar (d : PermissionDecision)
  | patternMap (m : List (String × PermissionDecision))
deriving DecidableEq, Repr

/-- A permission policy, as a JS object: keys in insertion order. -/
abbrev PermissionPolicy := List (String × PolicyEntry)

def DEFAULT_PERMISSION_POLICY : PermissionPolicy :=
  [("*", .scalar .ask), ("read", .scalar .allow), ("write", .scalar .ask),
   ("exec", .scalar .ask), ("network", .scalar .ask)]

/-- JS object spread merge: keys of the base first, overridden by the
update values, fresh update keys appended in order. -/
def objMerge (base update : List (String × α)) : List (String × α) :=
  update.foldl (fun acc kv => objSet acc kv.1 kv.2) base

/-- normalizePolicy: absent input yields the default policy; otherwise the
parsed input is merged over the defaults. -/
def normalizePolicy (input : Option PermissionPolicy) : PermissionPolicy :=
  match input with
  | none => DEFAULT_PERMISSION_POLICY
  | some p => objMerge DEFAULT_PERMISSION_POLICY p

/-- applyPatternMap: the wildcard entry first (if present), then every
entry whose pattern equals the target or glob-matches it, later entries
overriding earlier ones.  The glob matcher (picomatch.isMatch, an external
library) is passed as a parameter `isMatch target pattern`. -/
def applyPatternMap (isMatch : String → String → Bool)
    (decisionMap : List (String × PermissionDecision)) (target : String)
    (initial : PermissionDecision) : PermissionDecision :=
  let r0 :=
    match objLookup decisionMap "*" with
    | some d => d
    | none => initial
  decisionMap.foldl
    (fun r pd =>
      if pd.1 = "*" then r
      else if pd.1 = target ∨ isMatch target pd.1 then pd.2
      else r)
    r0

/-- evaluatePermission over the layered policy.  `subject`/`target` are
optional; the effective target is `target ?? subject ?? "*"`.  The subject
layer is skipped for an absent or empty subject (JS truthiness). -/
def evaluatePermission (isMatch : String → String → Bool)
    (policy : PermissionPolicy) (op : String)
    (subject target : Option String) : PermissionDecision :=
  let effectiveTarget := target.getD (subject.getD "*")
  let r1 :=
    match objLookup policy "*" with
    | some (.scalar d) => d
    | _ => PermissionDecision.ask
  let r2 :=
    match objLookup policy op with
    | some (.scalar d) => d
    | some (.patternMap m) => applyPatternMap isMatch m effectiveTarget r1
    | none => r1
  match subject with
  | none => r2
  | some s =>
    if s = "" then r2
    else
      match objLookup policy s with
      | some (.scalar d) => d
      | some (.patternMap m) => applyPatternMap isMatch m effectiveTarget r2
      | none => r2

/-- appendPolicyRule: absent key creates a one-entry map; a scalar is
converted to a map with the scalar under the wildcard; a map gets the
pattern set. -/
def appendPolicyRule (policy : PermissionPolicy) (key pattern : String)
    (decision : PermissionDecision) : PermissionPolicy :=
  match objLookup policy key with
  | none => objSet policy key (.patternMap [(pattern, decision)])
  | some (.scalar d) =>
    objSet policy key (.patternMap (objSet [("*", d)] pattern decision))
  | some (.patternMap m) =>
    objSet policy key (.patternMap (objSet m pattern decision))

/-! ## Association-list lemmas -/

theorem objLookup_objSet_self (l : List (String × α)) (k : String) (v : α) :
    objLookup (objSet l k v) k = some v := by
  induction l with
  | nil => simp [objSet, objLookup]
  | cons hd tl ih =>
    by_cases h : hd.1 = k
    · simp [objSet, h, objLookup]
    · simp [objSet, h, objLookup, ih]

theorem objSet_of_lookup_eq (l : List (String × α)) (k : String) (v : α)
    (h : objLookup l k = some v) : objSet l k v = l := by
  induction l with
  | nil => simp [objLookup] at h
  | cons hd tl ih =>
    match hd with
    | (k1, v1) =>
      by_cases hk : k1 = k
      · subst hk
        simp [objLookup] at h
        simp [objSet, h]
      · simp only [objLookup, if_neg hk] at h
        simp [objSet, hk, ih h]

/-- The once-appended policy holds the rule: the key maps to a pattern map
in which the pattern carries the decision. -/
theorem appendPolicyRule_lookup (policy : PermissionPolicy)
    (key pattern : String) (decision : PermissionDecision) :
    ∃ m, objLookup (appendPolicyRule policy key pattern decision) key
        = some (PolicyEntry.patternMap m)
      ∧ objLookup m pattern = some decision := by
  unfold appendPolicyRule
  match h : objLookup policy key with
  | none =>
    refine ⟨[(pattern, decision)], ?_, ?_⟩
    · exact objLookup_objSet_self ..
    · simp [objLookup]
  | some (.scalar d) =>
    refine ⟨objSet [("*", d)] pattern decision, ?_, ?_⟩
    · exact objLookup_objSet_self ..
    · exact objLookup_objSet_self ..
  | some (.patternMap m) =>
    refine ⟨objSet m pattern decision, ?_, ?_⟩
    · exact objLookup_objSet_self ..
    · exact objLookup_objSet_self ..

/-- appendPolicyRule is idempotent on identical triples, as policy values. -/
theorem appendPolicyRule_idem_eq (policy : PermissionPolicy)
    (key pattern : String) (decision : PermissionDecision) :
    appendPolicyRule (appendPolicyRule policy key pattern decision)
        key pattern decision
      = appendPolicyRule policy key pattern decision := by
  obtain ⟨m, hm, hpat⟩ := appendPolicyRule_lookup policy key pattern decision
  conv_lhs => rw [appendPolicyRule, hm]
  dsimp only
  rw [objSet_of_lookup_eq m pattern decision hpat]
  exact objSet_of_lookup_eq _ key _ hm

/-! ## Session event store (packages/session/src/index.ts) -/

/-- A stored event row as it sits in the events table: the payload is the
text column (JSON.stringify output, or any text). -/
structure EventRow where
  id : String
  sessionId : String
  kind : String
  payload : String
  createdAt : Nat
deriving DecidableEq, Repr

/-- A decoded event as returned by listEvents. -/
structure SessionEvent where
  id : String
  sessionId : String
  kind : String
  payload : Json
  createdAt : Nat

/-- parsePayload: JSON.parse the stored text; objects (and arrays, which
are objects in JS) pass through; other parsed values are wrapped as
value-records; a parse failure yields a raw-record instead of an error. -/
def parsePayload (payload : String) : Json :=
  match jsonParse payload with
  | some j =>
    match j with
    | .obj fields => Json.obj fields
    | .arr items => Json.arr items
    | other => Json.obj [("value", other)]
  | none => Json.obj [("raw", Json.str payload)]

/-- listEvents over the rows the query returns for a session (ordered by
created_at ASC): every row is decoded with parsePayload; the decoding is
total, so a malformed payload never fails the listing. -/
def listEvents (rows : List EventRow) : List SessionEvent :=
  rows.map (fun row =>
    { id := row.id
      sessionId := row.sessionId
      kind := row.kind
      payload := parsePayload row.payload
      createdAt := row.createdAt })

/-! ## Path resolution and built-in file tools (tool runtime) -/

/-- Does the first list start with the second list (plain character
equality)? -/
def startsWithChars (pat : List Char) : List Char → Bool
  | [] => pat = []
  | c :: cs =>
    match pat with
    | [] => true
    | p :: ps => p = c && startsWithChars ps cs

/-- Split a character list at every slash (the pieces between slashes,
in order, possibly empty). -/
def splitSlash : List Char → List Char → List (List Char)
  | [], cur => [cur.reverse]
  | c :: rest, cur =>
    if c = '/' then cur.reverse :: splitSlash rest []
    else splitSlash rest (c :: cur)

/-- Split a POSIX path into its non-empty segments. -/
def splitPath (cs : List Char) : List (List Char) :=
  (splitSlash cs []).filter (fun seg => seg ≠ [])

/-- Normalize segments the way node path.resolve does: drop dots, a
dot-dot pops the previous segment (and is a no-op at the root). -/
def normalizeSegs (segs : List (List Char)) : List (List Char) :=
  segs.foldl
    (fun acc seg =>
      if seg = ['.'] then acc
      else if seg = ['.', '.'] then acc.dropLast
      else acc ++ [seg])
    []

def joinSegs : List (List Char) → List Char
  | [] => []
  | [seg] => seg
  | seg :: rest => seg ++ '/' :: joinSegs rest

def renderAbs (segs : List (List Char)) : List Char :=
  '/' :: joinSegs segs

/-- node path.resolve over characters: an absolute path replaces cwd, a
relative one is appended, then the result is normalized. -/
def pathResolveChars (cwd rel : List Char) : List Char :=
  match rel with
  | '/' :: _ => renderAbs (normalizeSegs (splitPath rel))
  | _ => renderAbs (normalizeSegs (splitPath cwd ++ splitPath rel))

/-- node path.resolve for an absolute cwd and one further path. -/
def pathResolve (cwd rel : String) : String :=
  String.mk (pathResolveChars cwd.data rel.data)

/-- path.resolve(cwd) alone: just normalization of the absolute cwd. -/
def pathResolveOne (cwd : String) : String :=
  String.mk (pathResolveChars cwd.data [])

/-- resolvePath from the tool runtime: resolve, then reject when the
resolved path does not start (as a character string) with the resolved
cwd. -/
def resolvePath (cwd rel : String) : Except String String :=
  let abs := pathResolveChars cwd.data rel.data
  if startsWithChars (pathResolveChars cwd.data []) abs then
    Except.ok (String.mk abs)
  else Except.error "Path escapes cwd"

/-- Follows the claim and spec words, for comparison with resolvePath: a
resolved absolute path denotes a location outside cwd when it is neither
cwd itself nor below it (below = extends cwd across a path separator). -/
def outsideCwdSpec (cwd abs : String) : Bool :=
  let c := pathResolveChars cwd.data []
  !(abs.data = c || startsWithChars (c ++ ['/']) abs.data)

/-- A file-system action a built-in tool performs after validation. -/
inductive FsOp where
  | readFs (path : String)
  | writeFs (path : String)
deriving DecidableEq, Repr

/-- readSchema.parse: the input must be an object with a string path
(zod strips unknown keys). -/
def readSchemaParse (input : Json) : Option String :=
  match input with
  | .obj fields =>
    match objLookup fields "path" with
    | some (.str p) => some p
    | _ => none
  | _ => none

/-- The read_file built-in: validate the input, resolve the path (which
may fail with the path-escape error before any I/O), then read.  The
returned trace lists the file-system operations performed. -/
def read_file_run (input : Json) (cwd : String) :
    Except String (String × List FsOp) :=
  match readSchemaParse input with
  | none => Except.error "invalid input"
  | some rel =>
    match resolvePath cwd rel with
    | .error e => Except.error e
    | .ok abs => Except.ok (abs, [FsOp.readFs abs])

/-! ## Tool-call extraction (packages/core, extractToolCall) -/

/-- A parsed tool call: toolCallSchema is a zod object requiring
type = "tool_call", a string tool and a record of arguments.  The
arguments field is required by the schema (this matters: a missing
arguments field fails validation). -/
structure ToolCall where
  tool : String
  args : List (String × Json)

/-- toolCallSchema.safeParse on a parsed JSON value. -/
def toolCallOfJson (j : Json) : Option ToolCall :=
  match j with
  | .obj fields =>
    match objLookup fields "type", objLookup fields "tool",
        objLookup fields "arguments" with
    | some (.str ty), some (.str tool), some (.obj args) =>
      if ty = "tool_call" then some { tool := tool, args := args } else none
    | _, _, _ => none
  | _ => none

def toLowerAscii (c : Char) : Char :=
  if 'A' ≤ c ∧ c ≤ 'Z' then Char.ofNat (c.toNat + 32) else c

/-- Case-insensitive literal match at the head (the pattern is given in
lower case). -/
def startsWithCI : List Char → List Char → Bool
  | [], _ => true
  | _ :: _, [] => false
  | p :: ps, c :: cs => p = toLowerAscii c && startsWithCI ps cs

/-- Index of the first case-insensitive occurrence of the pattern. -/
def findCI (pat : List Char) : List Char → Option Nat
  | [] => if pat.isEmpty then some 0 else none
  | c :: rest =>
    if startsWithCI pat (c :: rest) then some 0
    else
      match findCI pat rest with
      | some i => some (i + 1)
      | none => none

def countLeadingWs : List Char → Nat
  | [] => 0
  | c :: rest => if c.isWhitespace then countLeadingWs rest + 1 else 0

/-- The capture of the first match of the fenced-block regular expression
(three backticks, the letters json case-insensitively, optional
whitespace, then a lazily captured body up to the next closing three
backticks).  If a fence opening has no closing fence the scan resumes at
the next character, as a backtracking regex engine does. -/
def jsonFenceCapture (fuel : Nat) (cs : List Char) : Option (List Char) :=
  match fuel with
  | 0 => none
  | fuel + 1 =>
    match findCI ("```json".toList) cs with
    | none => none
    | some i =>
      let after := cs.drop (i + 7)
      let w := countLeadingWs after
      let rest := after.drop w
      match findCI ("```".toList) rest with
      | some m => some (rest.take m)
      | none => jsonFenceCapture fuel (cs.drop (i + 1))

def dropLeadingWs : List Char → List Char
  | [] => []
  | c :: rest => if c.isWhitespace then dropLeadingWs rest else c :: rest

/-- String.trim over characters: strip leading and trailing whitespace. -/
def trimChars (cs : List Char) : List Char :=
  (dropLeadingWs (dropLeadingWs cs).reverse).reverse

def tryToolCallCandidates : List (List Char) → Option ToolCall
  | [] => none
  | c :: rest =>
    match (jsonParseChars c).bind toolCallOfJson with
    | some tc => some tc
    | none => tryToolCallCandidates rest

/-- extractToolCall: the candidates are the whole trimmed output and, when
the output has a json-labelled fenced block with a non-empty raw capture,
that capture trimmed.  The first candidate that JSON-parses and validates
against toolCallSchema wins; otherwise none (terminal assistant answer). -/
def extractToolCall (text : String) : Option ToolCall :=
  let trimmed := trimChars text.data
  let fenceCands : List (List Char) :=
    match jsonFenceCapture (trimmed.length + 1) trimmed with
    | some cap =>
      if cap = [] then [] else [trimChars cap]
    | none => []
  tryToolCallCandidates (trimmed :: fenceCands)

/-! ## JSON.stringify (used by the engine when building transcript turns) -/

def escapeChar (c : Char) : List Char :=
  if c = '"' then ['\\', '"']
  else if c = '\\' then ['\\', '\\']
  else if c = '\n' then ['\\', 'n']
  else if c = '\t' then ['\\', 't']
  else if c = Char.ofNat 13 then ['\\', 'r']
  else if c = Char.ofNat 8 then ['\\', 'b']
  else if c = Char.ofNat 12 then ['\\', 'f']
  else if c.toNat < 32 then
    let hexDigit := fun (n : Nat) =>
      if n < 10 then Char.ofNat (48 + n) else Char.ofNat (87 + n - 10)
    ['\\', 'u', '0', '0', hexDigit (c.toNat / 16), hexDigit (c.toNat % 16)]
  else [c]

def strLit (s : String) : String :=
  "\"" ++ String.mk (s.data.flatMap escapeChar) ++ "\""

mutual

def jsonStringify : Json → String
  | .null => "null"
  | .bool true => "true"
  | .bool false => "false"
  | .num lexeme => lexeme
  | .str s => strLit s
  | .arr items => "[" ++ stringifyItems items ++ "]"
  | .obj fields => String.mk [lbrace] ++ stringifyFields fields ++ String.mk [rbrace]

def stringifyItems : List Json → String
  | [] => ""
  | [j] => jsonStringify j
  | j :: rest => jsonStringify j ++ "," ++ stringifyItems rest

def stringifyFields : List (String × Json) → String
  | [] => ""
  | [(k, v)] => strLit k ++ ":" ++ jsonStringify v
  | (k, v) :: rest => strLit k ++ ":" ++ jsonStringify v ++ "," ++ stringifyFields rest

end

/-! ## Agent step engine (packages/core, AgentRunner.run) -/

/-- A transcript turn: role is one of system, user, assistant, tool. -/
structure AgentMessage where
  role : String
  content : String

/-- A remembered rule attached to a permission resolution. -/
structure RememberRule where
  key : String
  pattern : String
  decision : PermissionDecision

/-- The payload of a permission_request event. -/
structure PermissionRequest where
  requestId : String
  op : String
  tool : String
  target : String
  args : List (String × Json)

/-- The resolution the onPermissionRequest callback settles with. -/
structure PermissionResolution where
  decision : PermissionDecision
  remember : Option RememberRule

/-- The engine event union exactly as the implementation declares it:
assistant, tool_call, tool_result, permission_request, permission_resolved,
error and done.  The implementation has no run_started, assistant_delta,
run_finished, model_timeout or run_failed variant. -/
inductive AgentEvent where
  | assistant (text : String)
  | toolCallEv (tool : String) (args : List (String × Json))
  | toolResultEv (tool : String) (result : Json)
  | permissionRequestEv (req : PermissionRequest)
  | permissionResolvedEv (requestId : String) (decision : PermissionDecision)
      (remember : Option RememberRule)
  | errorEv (message : String)
  | doneEv (reason : String)

/-- The tool runtime as the engine uses it: permission lookup and
execution (cwd-parameterized); execution may fail with a message. -/
structure ToolRuntimeModel where
  permissionFor : String → String
  executeTool : String → List (String × Json) → String → Except String Json

def decisionToString : PermissionDecision → String
  | .allow => "allow"
  | .deny => "deny"
  | .ask => "ask"

/-- summarizeToolTarget: the command for exec, the path for the file
tools, else the stringified arguments. -/
def summarizeToolTarget (tool : String) (args : List (String × Json)) : String :=
  if tool = "exec" then
    match objLookup args "command" with
    | some (.str cmd) => cmd
    | _ => jsonStringify (.obj args)
  else if tool = "read_file" ∨ tool = "write_file" then
    match objLookup args "path" with
    | some (.str p) => p
    | _ => jsonStringify (.obj args)
  else jsonStringify (.obj args)

/-- JSON.stringify of the validated tool call, key order type, tool,
arguments, as appended to the transcript on success. -/
def stringifyToolCall (tc : ToolCall) : String :=
  jsonStringify (.obj
    [("type", .str "tool_call"), ("tool", .str tc.tool),
     ("arguments", .obj tc.args)])

/-- The tool-role message content for a successful execution. -/
def toolOkContent (tool : String) (result : Json) : String :=
  jsonStringify (.obj [("tool", .str tool), ("ok", .bool true), ("result", result)])

/-- The tool-role message content for a failed or denied execution. -/
def toolErrContent (tool message : String) : String :=
  jsonStringify (.obj [("tool", .str tool), ("ok", .bool false), ("error", .str message)])

/-- The outcome of a completed run: text, accumulated transcript, and the
working policy (possibly amended by remember rules). -/
structure RunDone where
  text : String
  messages : List AgentMessage
  policy : PermissionPolicy

/-- What a run produces: the emitted events in order, how many times
toolRuntime.executeTool was invoked, and the outcome (the propagated
transport error, or the returned value). -/
structure RunResult where
  events : List AgentEvent
  execCount : Nat
  outcome : Except String RunDone

def initialMessages (prompt : String) : List AgentMessage :=
  [{ role := "system",
     content := "You are blah-code coding agent. Use tools when needed. If tool required, emit strict JSON tool_call object." },
   { role := "user", content := prompt }]

/-- One pass of the bounded step loop.  The transport is a deterministic
function of the transcript (Except.error is a rejected completion, which
the implementation does not catch: it propagates after emitting nothing).
uuid names the fresh request id for the step index. -/
def runLoop (isMatch : String → String → Bool)
    (transport : List AgentMessage → Except String String)
    (rt : ToolRuntimeModel) (uuid : Nat → String)
    (onPerm : Option (PermissionRequest → PermissionResolution))
    (cwd : String) :
    Nat → List AgentMessage → PermissionPolicy → Nat → RunResult
  | 0, messages, policy, _ =>
    { events := [.doneEv "max_steps"], execCount := 0,
      outcome := .ok { text := "Stopped: max steps reached",
                       messages := messages, policy := policy } }
  | fuel + 1, messages, policy, stepIdx =>
    match transport messages with
    | .error e => { events := [], execCount := 0, outcome := .error e }
    | .ok text =>
      match extractToolCall text with
      | none =>
        { events := [.assistant text, .doneEv "completed"], execCount := 0,
          outcome := .ok { text := text,
                           messages := messages ++ [{ role := "assistant", content := text }],
                           policy := policy } }
      | some tc =>
        let target := summarizeToolTarget tc.tool tc.args
        let op := rt.permissionFor tc.tool
        let d0 := evaluatePermission isMatch policy op (some ("tool." ++ tc.tool)) (some target)
        let gate : PermissionDecision × PermissionPolicy × List AgentEvent :=
          match d0, onPerm with
          | .ask, some resolver =>
            let req : PermissionRequest :=
              { requestId := uuid stepIdx, op := op, tool := tc.tool,
                target := target, args := tc.args }
            let res := resolver req
            let policy1 :=
              match res.remember with
              | some r => appendPolicyRule policy r.key r.pattern r.decision
              | none => policy
            (res.decision, policy1,
              [.permissionRequestEv req,
               .permissionResolvedEv req.requestId res.decision res.remember])
          | d, _ => (d, policy, [])
        match gate with
        | (decision, policy1, gateEvents) =>
          if decision = .allow then
            match rt.executeTool tc.tool tc.args cwd with
            | .ok result =>
              let rest := runLoop isMatch transport rt uuid onPerm cwd fuel
                (messages ++
                  [{ role := "assistant", content := stringifyToolCall tc },
                   { role := "tool", content := toolOkContent tc.tool result }])
                policy1 (stepIdx + 1)
              { events := gateEvents ++
                  [.toolCallEv tc.tool tc.args, .toolResultEv tc.tool result] ++ rest.events,
                execCount := rest.execCount + 1,
                outcome := rest.outcome }
            | .error msg =>
              let rest := runLoop isMatch transport rt uuid onPerm cwd fuel
                (messages ++ [{ role := "tool", content := toolErrContent tc.tool msg }])
                policy1 (stepIdx + 1)
              { events := gateEvents ++
                  [.toolCallEv tc.tool tc.args, .errorEv msg] ++ rest.events,
                execCount := rest.execCount + 1,
                outcome := rest.outcome }
          else
            let errMsg := "Permission " ++ decisionToString decision ++ " for " ++ tc.tool
            let rest := runLoop isMatch transport rt uuid onPerm cwd fuel
              (messages ++ [{ role := "tool", content := toolErrContent tc.tool errMsg }])
              policy1 (stepIdx + 1)
            { events := gateEvents ++ [.errorEv errMsg] ++ rest.events,
              execCount := rest.execCount,
              outcome := rest.outcome }

/-- AgentRunner.run: normalize the policy, build the initial transcript,
then loop up to maxSteps (default 8). -/
def AgentRunner.run (isMatch : String → String → Bool)
    (transport : List AgentMessage → Except String String)
    (rt : ToolRuntimeModel) (uuid : Nat → String)
    (onPerm : Option (PermissionRequest → PermissionResolution))
    (cwd prompt : String) (maxSteps : Nat)
    (policyInput : Option PermissionPolicy) : RunResult :=
  runLoop isMatch transport rt uuid onPerm cwd maxSteps
    (initialMessages prompt) (normalizePolicy policyInput) 0

/-! ## Approval broker (daemon, onPermissionRequest handler) -/

/-- An in-flight permission request entry in the per-session map. -/
structure PendingEntry where
  request : PermissionRequest
  createdAt : Nat

/-- JS Map.delete: the entry for the key is removed, insertion order of
the rest is preserved. -/
def mapDelete (m : List (String × PendingEntry)) (k : String) :
    List (String × PendingEntry) :=
  m.filter (fun p => p.1 ≠ k)

/-- The 5-minute auto-deny timer callback: if the request is still
pending, the entry is deleted and the promise resolves with a bare deny;
the broker appends no event of its own (the second component is the
resolution handed to the engine, the third the events the broker emits). -/
def autoDenyFire (m : List (String × PendingEntry)) (requestId : String) :
    List (String × PendingEntry) × Option PermissionResolution × List AgentEvent :=
  match objLookup m requestId with
  | none => (m, none, [])
  | some _ => (mapDelete m requestId, some { decision := .deny, remember := none }, [])

/-! ## Shared fixtures and further lemmas -/

/-- A glob matcher that never matches (pattern-equality still applies). -/
def noGlob : String → String → Bool := fun _ _ => false

/-- A fixed request-id generator. -/
def uuid0 : Nat → String := fun _ => "u0"

/-- A runtime whose tools all carry the exec permission and always
execute successfully. -/
def rtExecOk : ToolRuntimeModel :=
  { permissionFor := fun _ => "exec",
    executeTool := fun _ _ _ => .ok (Json.str "ok") }

def c3Text : String := "\x7b\"type\":\"tool_call\",\"tool\":\"list_files\"\x7d"

def c4Raw : String :=
  "\x7b\"type\":\"tool_call\",\"tool\":\"list_files\",\"arguments\":\x7b\x7d\x7d"

def c4JsonFence : String := "```json\n" ++ c4Raw ++ "\n```"

def c4UnlabeledFence : String := "```\n" ++ c4Raw ++ "\n```"

def c4ProseBrace : String :=
  "Sure, I will use a tool.\n\n\x7b\"type\":\"tool_call\",\"tool\":\"list_files\",\"arguments\":\x7b\"pattern\":\"**/*\",\"limit\":2\x7d\x7d"

def c6Text : String :=
  "\x7b\"type\":\"tool_call\",\"tool\":\"exec\",\"arguments\":\x7b\"command\":\"rm -rf /\"\x7d\x7d"

def c7Text : String := "\x7b\"type\":\"tool_call\",\"tool\":\"t\",\"arguments\":\x7b\x7d\x7d"

/-- The run in which an ask decision is resolved the way the broker's
auto-deny timer resolves it: a bare deny with no remember rule. -/
def c6Run : RunResult :=
  AgentRunner.run noGlob (fun _ => .ok c6Text) rtExecOk uuid0
    (some (fun _ => { decision := .deny, remember := none })) "/w" "p" 1 none

def hasPermissionResolved (events : List AgentEvent) : Bool :=
  events.any fun e =>
    match e with
    | .permissionResolvedEv _ _ _ => true
    | _ => false

theorem objLookup_mapDelete (m : List (String × PendingEntry)) (k : String) :
    objLookup (mapDelete m k) k = none := by
  induction m with
  | nil => rfl
  | cons hd tl ih =>
    by_cases h : hd.1 = k
    · simpa [mapDelete, List.filter_cons, h] using ih
    · simpa [mapDelete, List.filter_cons, h, objLookup] using ih

def repeatN (n : Nat) (l : List α) : List α :=
  match n with
  | 0 => []
  | n + 1 => l ++ repeatN n l

/-- The events one allowed execution step emits: tool_call then either
tool_result (execution resolved) or error (execution threw). -/
def execStepEvents (tc : ToolCall) (r : Except String Json) : List AgentEvent :=
  match r with
  | .ok res => [.toolCallEv tc.tool tc.args, .toolResultEv tc.tool res]
  | .error msg => [.toolCallEv tc.tool tc.args, .errorEv msg]

/-- The transcript turns one allowed execution step appends: the
stringified call and ok-result on success, the error record on failure. -/
def execStepMessages (tc : ToolCall) (r : Except String Json) : List AgentMessage :=
  match r with
  | .ok res =>
    [{ role := "assistant", content := stringifyToolCall tc },
     { role := "tool", content := toolOkContent tc.tool res }]
  | .error msg => [{ role := "tool", content := toolErrContent tc.tool msg }]

/-- If every completion is the same tool-call text and the policy allows
it, each loop pass invokes the tool exactly once — whether the execution
resolves or throws — appends that step's transcript turns and emits that
step's events, until fuel runs out and the loop ends with done
(max_steps). -/
theorem runLoop_always_toolcall (isMatch : String → String → Bool)
    (rt : ToolRuntimeModel) (uuid : Nat → String)
    (onPerm : Option (PermissionRequest → PermissionResolution))
    (cwd txt : String) (tc : ToolCall) (policy : PermissionPolicy)
    (hparse : extractToolCall txt = some tc)
    (hallow : evaluatePermission isMatch policy (rt.permissionFor tc.tool)
        (some ("tool." ++ tc.tool))
        (some (summarizeToolTarget tc.tool tc.args)) = .allow) :
    ∀ (n : Nat) (messages : List AgentMessage) (stepIdx : Nat),
      runLoop isMatch (fun _ => .ok txt) rt uuid onPerm cwd n messages policy stepIdx
        = { events :=
              repeatN n (execStepEvents tc (rt.executeTool tc.tool tc.args cwd))
                ++ [.doneEv "max_steps"],
            execCount := n,
            outcome := .ok
              { text := "Stopped: max steps reached",
                messages := messages ++ repeatN n
                  (execStepMessages tc (rt.executeTool tc.tool tc.args cwd)),
                policy := policy } } := by
  intro n
  induction n with
  | zero =>
    intro messages stepIdx
    simp [runLoop, repeatN]
  | succ n ih =>
    intro messages stepIdx
    cases hres : rt.executeTool tc.tool tc.args cwd with
    | ok res =>
      simp only [runLoop, hparse, hallow, hres, ih]
      simp [repeatN, execStepEvents, execStepMessages, hres]
    | error msg =>
      simp only [runLoop, hparse, hallow, hres, ih]
      simp [repeatN, execStepEvents, execStepMessages, hres]

/-! ## Claim theorems -/

/-- C1: the claim says every read_file/write_file input whose path
resolves outside cwd fails with the path-escape error before any I/O.
The resolved path of input path "../bc" against cwd "/a/b" is "/a/bc",
which is outside "/a/b", yet read_file proceeds to the file read with no
error, because the guard is a plain string-prefix test ("/a/bc" starts
with "/a/b").  The third conjunct shows the guard does fire, before any
I/O, on a path whose resolution is not a string extension of cwd. -/
theorem read_file_path_escape_missed :
    outsideCwdSpec "/a/b" (pathResolve "/a/b" "../bc") = true
    ∧ read_file_run (Json.obj [("path", Json.str "../bc")]) "/a/b"
        = Except.ok ("/a/bc", [FsOp.readFs "/a/bc"])
    ∧ read_file_run (Json.obj [("path", Json.str "../x")]) "/a/b"
        = Except.error "Path escapes cwd" := by
  refine ⟨?_, ?_, ?_⟩ <;> rfl

/-- C2: the claim (and the repository's own test) expects a failing
transport completion to emit model_timeout (the message contains
"timeout") and run_failed before the error propagates.  The
implementation emits no event at all on transport failure: the run's
event list is empty and the error propagates to the caller. -/
theorem transport_failure_emits_no_events :
    (AgentRunner.run noGlob (fun _ => .error "Model response timeout after 1000ms")
        rtExecOk uuid0 none "/w" "p" 8 none).events = []
    ∧ (AgentRunner.run noGlob (fun _ => .error "Model response timeout after 1000ms")
        rtExecOk uuid0 none "/w" "p" 8 none).outcome
      = Except.error "Model response timeout after 1000ms" := by
  refine ⟨?_, ?_⟩ <;> rfl

/-- C3: the claim (and the repository's own test) expects a tool_call
object with no arguments field to execute with the empty arguments
object.  toolCallSchema requires the arguments field, so extractToolCall
rejects the output; the engine classifies it as a terminal assistant
answer and never invokes executeTool. -/
theorem missing_arguments_not_defaulted :
    extractToolCall c3Text = none
    ∧ (AgentRunner.run noGlob (fun _ => .ok c3Text) rtExecOk uuid0
        none "/w" "p" 4 none).events
      = [.assistant c3Text, .doneEv "completed"]
    ∧ (AgentRunner.run noGlob (fun _ => .ok c3Text) rtExecOk uuid0
        none "/w" "p" 4 none).execCount = 0 := by
  refine ⟨?_, ?_, ?_⟩ <;> rfl

/-- C4: the claim lists three extraction strategies.  Only two exist in
the implementation: the whole trimmed output (first conjunct) and a
json-labelled fenced block (second conjunct).  An unlabeled fenced block
(third conjunct) and the first-brace-to-last-brace recovery (fourth
conjunct, prose followed by raw JSON) are rejected, although the
repository's own tests assert both succeed. -/
theorem extraction_strategies_incomplete :
    extractToolCall c4Raw = some { tool := "list_files", args := [] }
    ∧ extractToolCall c4JsonFence = some { tool := "list_files", args := [] }
    ∧ extractToolCall c4UnlabeledFence = none
    ∧ extractToolCall c4ProseBrace = none := by
  refine ⟨?_, ?_, ?_, ?_⟩ <;> rfl

/-- C5: the claim expects the event sequence run_started, one
assistant_delta per delta chunk, assistant, run_finished, done for a
first completion with no tool call.  The implementation emits exactly
assistant then done (reason "completed"): there is no run_started,
assistant_delta or run_finished (the engine's event union has no such
variants and its transport call passes no delta callback), though the
completion text is returned as the claim says. -/
theorem plain_reply_event_sequence :
    (AgentRunner.run noGlob (fun _ => .ok "final answer") rtExecOk uuid0
        none "/w" "p" 8 none).events
      = [.assistant "final answer", .doneEv "completed"]
    ∧ (AgentRunner.run noGlob (fun _ => .ok "final answer") rtExecOk uuid0
        none "/w" "p" 8 none).outcome
      = Except.ok
          { text := "final answer",
            messages := initialMessages "p"
              ++ [{ role := "assistant", content := "final answer" }],
            policy := DEFAULT_PERMISSION_POLICY } := by
  refine ⟨?_, ?_⟩ <;> rfl

/-- C6 counterexample: the claim says no permission_resolved event is
emitted when an ask request is resolved by the auto-deny timer.  In the
run where the pending ask resolves exactly the way the timer resolves it
(a bare deny), the engine emits a permission_resolved event. -/
theorem auto_deny_still_emits_permission_resolved :
    hasPermissionResolved c6Run.events = true := by rfl

/-- C6 amended: when the auto-deny timer fires on a pending request the
entry is removed and the request resolves with a bare deny, and the
broker itself emits no event; but the engine emits permission_resolved
for every resolved ask, so the auto-denied request still gets a
permission_resolved event (decision deny, no remember rule). -/
theorem auto_deny_removes_entry_and_resolves_deny :
    (∀ (m : List (String × PendingEntry)) (rid : String) (e : PendingEntry),
        objLookup m rid = some e →
          objLookup (autoDenyFire m rid).1 rid = none
          ∧ (autoDenyFire m rid).2.1 = some { decision := .deny, remember := none }
          ∧ (autoDenyFire m rid).2.2 = [])
    ∧ c6Run.events
      = [.permissionRequestEv
           { requestId := "u0", op := "exec", tool := "exec",
             target := "rm -rf /", args := [("command", Json.str "rm -rf /")] },
         .permissionResolvedEv "u0" .deny none,
         .errorEv "Permission deny for exec",
         .doneEv "max_steps"] := by
  refine ⟨?_, by rfl⟩
  intro m rid e h
  unfold autoDenyFire
  rw [h]
  exact ⟨objLookup_mapDelete m rid, rfl, rfl⟩

/-- C6 witness: the amended theorem applied to a concrete one-entry
pending map. -/
theorem auto_deny_removes_entry_and_resolves_deny_witness :
    objLookup (autoDenyFire
        [("r1", { request := { requestId := "r1", op := "exec", tool := "exec",
                               target := "rm", args := [] },
                  createdAt := 0 })] "r1").1 "r1" = none
    ∧ (autoDenyFire
        [("r1", { request := { requestId := "r1", op := "exec", tool := "exec",
                               target := "rm", args := [] },
                  createdAt := 0 })] "r1").2.1
      = some { decision := .deny, remember := none }
    ∧ (autoDenyFire
        [("r1", { request := { requestId := "r1", op := "exec", tool := "exec",
                               target := "rm", args := [] },
                  createdAt := 0 })] "r1").2.2 = [] :=
  auto_deny_removes_entry_and_resolves_deny.1 _ "r1"
    { request := { requestId := "r1", op := "exec", tool := "exec",
                   target := "rm", args := [] },
      createdAt := 0 } (by rfl)

/-- C7: with maxSteps k at least one, a transport that always returns a
valid tool-call and a policy resolving that tool to allow, the run
invokes executeTool exactly k times — whether each execution resolves or
throws — emits that step's events per step followed by done (reason
max_steps), and returns the text "Stopped: max steps reached" with the
accumulated messages and the working policy. -/
theorem max_steps_exhaustion (isMatch : String → String → Bool)
    (rt : ToolRuntimeModel) (uuid : Nat → String)
    (onPerm : Option (PermissionRequest → PermissionResolution))
    (cwd prompt txt : String) (tc : ToolCall)
    (p : PermissionPolicy) (k : Nat)
    (hk : 1 ≤ k)
    (hparse : extractToolCall txt = some tc)
    (hallow : evaluatePermission isMatch (normalizePolicy (some p))
        (rt.permissionFor tc.tool) (some ("tool." ++ tc.tool))
        (some (summarizeToolTarget tc.tool tc.args)) = .allow) :
    AgentRunner.run isMatch (fun _ => .ok txt) rt uuid onPerm cwd prompt k (some p)
      = { events :=
            repeatN k (execStepEvents tc (rt.executeTool tc.tool tc.args cwd))
              ++ [.doneEv "max_steps"],
          execCount := k,
          outcome := .ok
            { text := "Stopped: max steps reached",
              messages := initialMessages prompt ++ repeatN k
                (execStepMessages tc (rt.executeTool tc.tool tc.args cwd)),
              policy := normalizePolicy (some p) } } := by
  unfold AgentRunner.run
  exact runLoop_always_toolcall isMatch rt uuid onPerm cwd txt tc
    (normalizePolicy (some p)) hparse hallow k (initialMessages prompt) 0

/-- A runtime whose tools all carry the exec permission and whose
execution always throws. -/
def rtExecFail : ToolRuntimeModel :=
  { permissionFor := fun _ => "exec",
    executeTool := fun _ _ _ => .error "boom" }

/-- C7 witness: the max-steps theorem at k = 2 with a concrete
always-tool-call transport, an exec-allow policy and a runtime whose
execution always throws: the throwing tool is still invoked exactly
twice, each step emits tool_call then error, and the run ends with done
(max_steps). -/
theorem max_steps_exhaustion_witness :
    AgentRunner.run noGlob (fun _ => .ok c7Text) rtExecFail uuid0 none "/w" "p" 2
        (some [("exec", .scalar .allow)])
      = { events :=
            repeatN 2 [.toolCallEv "t" [], .errorEv "boom"]
              ++ [.doneEv "max_steps"],
          execCount := 2,
          outcome := .ok
            { text := "Stopped: max steps reached",
              messages := initialMessages "p" ++ repeatN 2
                [{ role := "tool", content := toolErrContent "t" "boom" }],
              policy := normalizePolicy (some [("exec", .scalar .allow)]) } } := by
  exact max_steps_exhaustion noGlob rtExecFail uuid0 none "/w" "p" c7Text
    { tool := "t", args := [] } [("exec", .scalar .allow)] 2
    (by decide) (by rfl) (by rfl)

/-- C8: appending the same (key, pattern, decision) rule twice yields a
policy that evaluates identically to the once-appended policy on every
(op, subject, target) input, for any glob matcher. -/
theorem appendRule_idempotent (isMatch : String → String → Bool)
    (p : PermissionPolicy) (key pattern : String) (d : PermissionDecision)
    (op : String) (subject target : Option String) :
    evaluatePermission isMatch
        (appendPolicyRule (appendPolicyRule p key pattern d) key pattern d)
        op subject target
      = evaluatePermission isMatch (appendPolicyRule p key pattern d)
          op subject target := by
  rw [appendPolicyRule_idem_eq]

/-- C9: listEvents never fails on malformed stored payloads: every row is
returned (the lengths agree); a row whose payload text does not parse is
surfaced with payload equal to the raw-record wrapping the original text,
and a row whose payload parses to an object is surfaced with the decoded
object. -/
theorem listEvents_survives_malformed_payloads (rows : List EventRow) :
    (listEvents rows).length = rows.length
    ∧ (∀ r, r ∈ rows → jsonParse r.payload = none →
        ({ id := r.id, sessionId := r.sessionId, kind := r.kind,
           payload := Json.obj [("raw", Json.str r.payload)],
           createdAt := r.createdAt } : SessionEvent) ∈ listEvents rows)
    ∧ (∀ r fields, r ∈ rows → jsonParse r.payload = some (Json.obj fields) →
        ({ id := r.id, sessionId := r.sessionId, kind := r.kind,
           payload := Json.obj fields,
           createdAt := r.createdAt } : SessionEvent) ∈ listEvents rows) := by
  refine ⟨by simp [listEvents], ?_, ?_⟩
  · intro r hr hparse
    have : parsePayload r.payload = Json.obj [("raw", Json.str r.payload)] := by
      simp [parsePayload, hparse]
    refine List.mem_map.mpr ⟨r, hr, ?_⟩
    simp [this]
  · intro r fields hr hparse
    have : parsePayload r.payload = Json.obj fields := by
      simp [parsePayload, hparse]
    refine List.mem_map.mpr ⟨r, hr, ?_⟩
    simp [this]

def c9Row1 : EventRow :=
  { id := "e1", sessionId := "s", kind := "error",
    payload := "\x7boops", createdAt := 1 }

def c9Row2 : EventRow :=
  { id := "e2", sessionId := "s", kind := "assistant",
    payload := "\x7b\"text\":\"hi\"\x7d", createdAt := 2 }

def c9Rows : List EventRow := [c9Row1, c9Row2]

/-- C9 witness: a concrete two-row store, one malformed payload and one
well-formed object payload: the listing has both rows, the malformed one
surfaces as the raw-record and the well-formed one decodes. -/
theorem listEvents_survives_malformed_payloads_witness :
    (listEvents c9Rows).length = 2
    ∧ ({ id := "e1", sessionId := "s", kind := "error",
         payload := Json.obj [("raw", Json.str "\x7boops")],
         createdAt := 1 } : SessionEvent) ∈ listEvents c9Rows
    ∧ ({ id := "e2", sessionId := "s", kind := "assistant",
         payload := Json.obj [("text", Json.str "hi")],
         createdAt := 2 } : SessionEvent) ∈ listEvents c9Rows := by
  refine ⟨?_, ?_, ?_⟩
  · exact (listEvents_survives_malformed_payloads c9Rows).1
  · exact (listEvents_survives_malformed_payloads c9Rows).2.1 c9Row1
      (by simp [c9Rows]) (by rfl)
  · exact (listEvents_survives_malformed_payloads c9Rows).2.2 c9Row2
      [("text", Json.str "hi")] (by simp [c9Rows]) (by rfl)

/-- C10: with no target, evaluatePermission matches pattern maps against
the subject string (or against the wildcard string when there is no
subject either); in particular a pattern rule under the op key or under
the subject key fires on a call with no target when the pattern equals
(or glob-matches) the subject string, as the two concrete conjuncts
show for an op-key rule and a subject-key rule. -/
theorem no_target_matches_subject :
    (∀ (isMatch : String → String → Bool) (policy : PermissionPolicy)
        (op s : String),
        evaluatePermission isMatch policy op (some s) none
          = evaluatePermission isMatch policy op (some s) (some s))
    ∧ (∀ (isMatch : String → String → Bool) (policy : PermissionPolicy)
        (op : String),
        evaluatePermission isMatch policy op none none
          = evaluatePermission isMatch policy op none (some "*"))
    ∧ evaluatePermission noGlob [("read", .patternMap [("tool.x", .deny)])]
        "read" (some "tool.x") none = .deny
    ∧ evaluatePermission noGlob [("tool.x", .patternMap [("tool.x", .allow)])]
        "read" (some "tool.x") none = .allow :=
  ⟨fun _ _ _ _ => rfl, fun _ _ _ => rfl, rfl, rfl⟩

end BlahCode
